import Mathlib

/-!
Verification of the structural diff engine of `pyfits/diff.py` (fitsdiff).

The Python source is shallowly embedded: header values become the inductive
type `PyValue`, numpy arrays become flat row-major rational lists together
with a shape, the global `nodiff` flag becomes explicit state passing, and
Python exceptions become an explicit `Option PyExc` field in each result
record.  All definitions are executable so that concrete runs can be
evaluated inside proofs.
-/

namespace PyFits

/-- Python exceptions that the diff engine can raise. -/
inductive PyExc where
  | runtimeError
  | keyErr (kw : String)
  | attributeErr
  | indexErr
  | typeErr
deriving DecidableEq

/-- Values a FITS header card can carry once parsed: booleans, integers,
floats (modelled as exact rationals) and strings. -/
inductive PyValue where
  | bool (b : Bool)
  | int (n : ℤ)
  | float (q : ℚ)
  | str (s : String)
deriving DecidableEq

/-- Python `==` on header values: numbers compare numerically across
`bool`/`int`/`float` (Python treats `True == 1` and `1 == 1.0` as equal),
strings compare by content, and a number is never equal to a string. -/
def pyEqB : PyValue → PyValue → Bool
  | .bool a, .bool b => a == b
  | .bool a, .int n => decide (((if a then 1 else 0) : ℤ) = n)
  | .bool a, .float q => decide (((if a then 1 else 0) : ℚ) = q)
  | .int m, .bool b => decide (m = ((if b then 1 else 0) : ℤ))
  | .int m, .int n => decide (m = n)
  | .int m, .float q => decide ((m : ℚ) = q)
  | .float p, .bool b => decide (p = ((if b then 1 else 0) : ℚ))
  | .float p, .int n => decide (p = (n : ℚ))
  | .float p, .float q => decide (p = q)
  | .str s, .str t => s == t
  | .str _, _ => false
  | _, .str _ => false

/-- Predicate singling out the both-floats case of `diff_obj`. -/
def isFloatPair : PyValue → PyValue → Prop
  | .float _, .float _ => True
  | _, _ => False

instance : ∀ v w, Decidable (isFloatPair v w) := by
  intro v w
  cases v <;> cases w <;> simp only [isFloatPair] <;> infer_instance

/-- Embedding of `diff_obj` (diff.py lines 312-327): two floats are reported
different when their absolute gap exceeds the relative envelope around either
operand; any other pair of values is compared with Python `!=`. -/
def diff_obj (obj1 obj2 : PyValue) (delta : ℚ) : Bool :=
  match obj1, obj2 with
  | .float a, .float b =>
      let diff := |b - a|
      decide (diff > |a * delta|) || decide (diff > |b * delta|)
  | o1, o2 => !(pyEqB o1 o2)

/-! ### Flat-array primitives

A numpy array is embedded as a row-major flat list of rationals plus a
shape.  `numpy.nonzero` returns, in row-major scan order, the indices of the
nonzero entries; we model the scan order by carrying the index of the first
element, so `nonzeroBFrom k l` lists positions (offset by `k`) of the `true`
entries of `l`. -/

/-- Positions (starting at offset `k`) of the `true` entries of a boolean
list, in order. -/
def nonzeroBFrom (k : ℕ) : List Bool → List ℕ
  | [] => []
  | b :: rest => if b then k :: nonzeroBFrom (k + 1) rest else nonzeroBFrom (k + 1) rest

/-- Model of `numpy.nonzero` on a boolean array (flat positions). -/
def nonzeroB (l : List Bool) : List ℕ := nonzeroBFrom 0 l

/-- Model of `numpy.nonzero` on a float array: positions of nonzero entries. -/
def nonzeroQ (l : List ℚ) : List ℕ := nonzeroB (l.map (fun q => decide (q ≠ 0)))

/-- Model of `numpy.compress`: keep the entries of `l` whose mask bit is
`true`. -/
def compress {α : Type} : List Bool → List α → List α
  | c :: cs, x :: xs => if c then x :: compress cs xs else compress cs xs
  | _, _ => []

/-- Elementwise inequality mask, `num1.__ne__(num2)` on numeric arrays. -/
def neMask (num1 num2 : List ℚ) : List Bool :=
  List.zipWith (fun a b => decide (a ≠ b)) num1 num2

/-- The raw scaled difference array `num.absolute(num2-num1)/delta`. -/
def rawDiff (num1 num2 : List ℚ) (delta : ℚ) : List ℚ :=
  List.zipWith (fun a b => |b - a| / delta) num1 num2

/-- Boolean array `num.greater(d, num.absolute(x))` for aligned lists. -/
def greaterAbs (d x : List ℚ) : List Bool :=
  List.zipWith (fun di xi => decide (di > |xi|)) d x

/-- Sparse branch of `diff_num` (diff.py lines 364-374): compress the two
operands and the raw-difference array down to the candidate positions, apply
the exceeds-either-magnitude test on the compressed buffers, and keep the
candidate indices that pass. -/
def sparsePath (num1 num2 : List ℚ) (delta : ℚ) : List ℕ :=
  let diff := rawDiff num1 num2 delta
  let diff_indices := nonzeroQ diff
  let mask := diff.map (fun q => decide (q ≠ 0))
  let cram1 := compress mask num1
  let cram2 := compress mask num2
  let cram_diff := compress mask diff
  let a := greaterAbs cram_diff cram1
  let b := greaterAbs cram_diff cram2
  let r := List.zipWith or a b
  compress r diff_indices

/-- Dense branch of `diff_num` (diff.py lines 377-381): apply the
exceeds-either-magnitude test over the full arrays and take the nonzero
coordinates. -/
def densePath (num1 num2 : List ℚ) (delta : ℚ) : List ℕ :=
  let diff := rawDiff num1 num2 delta
  let a := greaterAbs diff num1
  let b := greaterAbs diff num2
  let r := List.zipWith or a b
  nonzeroB r

/-- A numpy array: row-major flat data plus a shape; `isChar` records
whether it is a chararray (text-typed, always compared exactly). -/
structure NdArr where
  shape : List ℕ
  data : List ℚ
  isChar : Bool
deriving DecidableEq

instance : Inhabited NdArr := ⟨⟨[], [], false⟩⟩

/-- Embedding of `diff_num` (diff.py lines 330-381), returning the flat
row-major positions of the elements reported different.  Chararrays force
`delta = 0`; `delta = 0` uses the exact inequality mask; otherwise the cheap
candidate mask is computed and, depending on candidate density, the sparse
(compress) or the dense branch finishes the job. -/
def diff_num (num1 num2 : NdArr) (delta : ℚ) : List ℕ :=
  let delta := if num1.isChar then 0 else delta
  if delta = 0 then
    nonzeroB (neMask num1.data num2.data)
  else
    let diff := rawDiff num1.data num2.data delta
    let diff_indices := nonzeroQ diff
    let n_nonzero := diff_indices.length
    if n_nonzero = 0 then diff_indices
    else if n_nonzero < diff.length / 3 then
      sparsePath num1.data num2.data delta
    else
      densePath num1.data num2.data delta

/-- Row-major per-axis indices of flat position `p` in an array of the given
shape. -/
def unravel : List ℕ → ℕ → List ℕ
  | [], _ => []
  | d :: ds, p =>
      let stride := ds.prod
      (p / stride) % d :: unravel ds (p % stride)

/-- The Coordinate Tuple: one zero-based index array per axis (the shape of
the value `numpy.nonzero` returns), derived from the flat positions. -/
def axisArrays (shape : List ℕ) (idxs : List ℕ) : List (List ℕ) :=
  (List.range shape.length).map (fun j => idxs.map (fun p => (unravel shape p).getD j 0))

/-! ### Python string helpers -/

/-- Python `str.isspace` characters. -/
def pyIsSpaceB (c : Char) : Bool :=
  c = ' ' || c = '\t' || c = '\n' || c = '\r' || c = '\x0b' || c = '\x0c'

/-- Python `str.upper`. -/
def pyUpperS (s : String) : String := String.mk (s.toList.map Char.toUpper)

/-- Python `str.rstrip()`: drop trailing whitespace. -/
def pyRstrip (s : String) : String :=
  String.mk ((s.toList.reverse.dropWhile pyIsSpaceB).reverse)

/-- Python `str.strip()`: drop leading and trailing whitespace. -/
def pyStrip (s : String) : String :=
  String.mk (((s.toList.dropWhile pyIsSpaceB).reverse.dropWhile pyIsSpaceB).reverse)

/-- Python `str.split(',')`: split at every comma, keeping empty pieces; the
result always has at least one element. -/
def splitComma : List Char → List (List Char)
  | [] => [[]]
  | c :: rest =>
      if c = ',' then [] :: splitComma rest
      else
        match splitComma rest with
        | [] => [[c]]
        | t :: ts => (c :: t) :: ts

/-- Helper for `splitWs`: `acc` holds the (reversed) current token. -/
def splitWsAux : List Char → List Char → List (List Char)
  | acc, [] => if acc.isEmpty then [] else [acc.reverse]
  | acc, c :: rest =>
      if pyIsSpaceB c then
        if acc.isEmpty then splitWsAux [] rest else acc.reverse :: splitWsAux [] rest
      else splitWsAux (c :: acc) rest

/-- Python `str.split()` (no argument): split on whitespace runs, dropping
empty tokens. -/
def splitWs (l : List Char) : List (List Char) := splitWsAux [] l

/-- Lexicographic comparison of character lists by code point, as Python
compares strings. -/
def charListLe : List Char → List Char → Bool
  | [], _ => true
  | _ :: _, [] => false
  | a :: as, b :: bs =>
      if a.toNat < b.toNat then true
      else if b.toNat < a.toNat then false
      else charListLe as bs

/-- String order used by `keys.sort()`. -/
def strLeB (s t : String) : Bool := charListLe s.toList t.toList

/-- Insert a string into an already sorted list. -/
def insertSorted (s : String) : List String → List String
  | [] => [s]
  | t :: ts => if strLeB s t then s :: t :: ts else t :: insertSorted s ts

/-- Model of Python `list.sort()` on keyword lists. -/
def sortStrs (l : List String) : List String := l.foldr insertSorted []

/-- Embedding of `list_parse` (diff.py lines 102-127).  The external file
system is the map `fs` from path to contents (`none` = unreadable).  The
boolean result records whether the CAUTION line was printed. -/
def list_parse (fs : String → Option String) (name_list : String) :
    List String × Bool :=
  let cs := name_list.toList
  if 0 < cs.length ∧ cs.getD 0 ' ' = '@' then
    match fs (String.mk (cs.drop 1)) with
    | some text =>
        let kw_list := (splitWs (text.toList.map Char.toUpper)).map String.mk
        (if kw_list.isEmpty then [""] else kw_list, false)
    | none => ([""], true)
  else
    ((splitComma (cs.map Char.toUpper)).map String.mk, false)

/-! ### Header model and keyword dictionaries -/

/-- One header card: keyword, value, comment — the ordered header-card
records supplied by the external file-model collaborator, duplicates
preserved in original order. -/
abbrev Card := String × PyValue × String

/-- Column data of a table payload. -/
structure TableData where
  names : List String
  fields : List NdArr
deriving DecidableEq

/-- Payload of a header-data unit. -/
inductive HduData where
  | table (t : TableData)
  | image (a : NdArr)
deriving DecidableEq

/-- A header-data unit: ordered cards plus an optional payload. -/
structure HDU where
  cards : List Card
  data : Option HduData
deriving DecidableEq

/-- Value of the first card with the given keyword (`header[kw]`). -/
def headerFind (cards : List Card) (kw : String) : Option PyValue :=
  match cards with
  | [] => none
  | c :: rest => if c.1 = kw then some c.2.1 else headerFind rest kw

/-- Append a value to a keyword's occurrence list (new keywords are added at
the end, repeated keywords append rather than overwrite). -/
def dictInsert {α : Type} (d : List (String × List α)) (k : String) (v : α) :
    List (String × List α) :=
  match d with
  | [] => [(k, [v])]
  | (k0, vs) :: rest =>
      if k0 = k then (k0, vs ++ [v]) :: rest else (k0, vs) :: dictInsert rest k v

/-- Occurrence list of a keyword in a dictionary. -/
def dictFind {α : Type} (d : List (String × List α)) (k : String) :
    Option (List α) :=
  match d with
  | [] => none
  | (k0, vs) :: rest => if k0 = k then some vs else dictFind rest k

/-- Keys of a dictionary in insertion order. -/
def dictKeys {α : Type} (d : List (String × List α)) : List String :=
  d.map Prod.fst

/-- Embedding of `keyword_dict` (diff.py lines 140-178): build the value and
comment dictionaries from the card list, trimming trailing blanks of string
values when `neglect_blanks` is set. -/
def keyword_dict (cards : List Card) (neglect_blanks : Bool) :
    List (String × List PyValue) × List (String × List String) :=
  cards.foldl (fun acc c =>
    let value : PyValue :=
      match c.2.1 with
      | .str s => .str (if neglect_blanks then pyRstrip s else s)
      | v => v
    (dictInsert acc.1 c.1 value, dictInsert acc.2 c.1 c.2.2)) ([], [])

/-! ### Detectors -/

/-- Embedding of `extra_keywords` (diff.py lines 181-214): report keywords
present on only one side and occurrence-count mismatches; any report clears
the accumulator. -/
def extra_keywords (dict1 dict2 : List (String × List PyValue)) (nodiff : Bool) :
    Bool :=
  let nd := (sortStrs (dictKeys dict1)).foldl (fun nd kw =>
    match dictFind dict2 kw with
    | none => false
    | some vals2 =>
        match dictFind dict1 kw with
        | some vals1 => if vals1.length ≠ vals2.length then false else nd
        | none => nd) nodiff
  (dictKeys dict2).foldl (fun nd kw =>
    if (dictFind dict1 kw).isNone then false else nd) nd

/-- Embedding of `compare_keyword_value` (diff.py lines 241-274): compare the
first `min` occurrences of every shared, non-excluded keyword with
`diff_obj`; any mismatch clears the accumulator. -/
def compare_keyword_value (dict1 dict2 : List (String × List PyValue))
    (keywords_to_skip : List String) (delta : ℚ) (nodiff : Bool) : Bool :=
  (sortStrs (dictKeys dict1)).foldl (fun nd kw =>
    if (dictFind dict2 kw).isSome && !(keywords_to_skip.contains kw) then
      let values1 := (dictFind dict1 kw).getD []
      let values2 := (dictFind dict2 kw).getD []
      (List.range (min values1.length values2.length)).foldl (fun nd i =>
        if diff_obj (values1.getD i (.int 0)) (values2.getD i (.int 0)) delta
        then false else nd) nd
    else nd) nodiff

/-- Embedding of `compare_keyword_comment` (diff.py lines 277-309): exact
string comparison of the first `min` occurrences of every shared,
non-excluded keyword's comments. -/
def compare_keyword_comment (dict1 dict2 : List (String × List String))
    (keywords_to_skip : List String) (nodiff : Bool) : Bool :=
  (sortStrs (dictKeys dict1)).foldl (fun nd kw =>
    if (dictFind dict2 kw).isSome && !(keywords_to_skip.contains kw) then
      let comments1 := (dictFind dict1 kw).getD []
      let comments2 := (dictFind dict2 kw).getD []
      (List.range (min comments1.length comments2.length)).foldl (fun nd i =>
        if comments1.getD i "" ≠ comments2.getD i "" then false else nd) nd
    else nd) nodiff

/-- Python list equality (`==`) on header-value lists. -/
def pyListEqB : List PyValue → List PyValue → Bool
  | [], [] => true
  | a :: as, b :: bs => pyEqB a b && pyListEqB as bs
  | _, _ => false

/-- Result of `compare_dim`: updated accumulator, optional exception, and the
dimension list (or `none` when data comparison must be skipped). -/
structure DimRes where
  nodiff : Bool
  exc : Option PyExc
  dim : Option (List PyValue)
deriving DecidableEq

/-- Values of `NAXISk`, `NAXIS(k+1)`, ... for `n` axes; `none` when a card is
missing (Python KeyError). -/
def axisValsFrom (cards : List Card) (k : ℕ) : ℕ → Option (List PyValue)
  | 0 => some []
  | n + 1 =>
      match headerFind cards ("NAXIS" ++ toString k) with
      | none => none
      | some v => (axisValsFrom cards (k + 1) n).map (v :: ·)

/-- Embedding of `compare_dim` (diff.py lines 384-419): compare `NAXIS` and
every `NAXISi`; a mismatch clears the accumulator and skips data comparison,
`NAXIS = 0` skips data comparison without touching the accumulator. -/
def compare_dim (im1 im2 : HDU) (nodiff : Bool) : DimRes :=
  match headerFind im1.cards "NAXIS" with
  | none => ⟨nodiff, some (.keyErr "NAXIS"), none⟩
  | some v1 =>
      match headerFind im2.cards "NAXIS" with
      | none => ⟨nodiff, some (.keyErr "NAXIS"), none⟩
      | some v2 =>
          if !(pyEqB v1 v2) then ⟨false, none, none⟩
          else if pyEqB v1 (.int 0) then ⟨nodiff, none, none⟩
          else
            let naxis : Option ℤ :=
              match v1 with
              | .int n => some n
              | .bool b => some (if b then 1 else 0)
              | _ => none
            match naxis with
            | none => ⟨nodiff, some .typeErr, none⟩
            | some n1 =>
                let d1o := axisValsFrom im1.cards 1 n1.toNat
                let d2o := axisValsFrom im2.cards 1 n1.toNat
                if d1o.isNone ∨ d2o.isNone then
                  ⟨nodiff, some (.keyErr "NAXISn"), none⟩
                else if pyListEqB (v1 :: d1o.getD []) (v2 :: d2o.getD []) then
                  ⟨nodiff, none, some (v1 :: d1o.getD [])⟩
                else ⟨false, none, none⟩

/-! ### Table comparator -/

/-- Result of `compare_table`: final accumulator, optional escaped exception
(with the accumulator as it was at raise time), total discrepancy count,
number of printed discrepancy location ("Row") lines, number of printed
column-type-mismatch lines, and the final value of the `maxdiff` budget
variable. -/
structure TableRes where
  nodiff : Bool
  exc : Option PyExc
  ndiff : ℕ
  locLines : ℕ
  typeLines : ℕ
  budget : ℤ
deriving DecidableEq

/-- Column loop of `compare_table` (diff.py lines 446-490).  The first `ℕ`
argument is the number of columns still to process, the second the current
column index; then the accumulator, the remaining print budget, the running
discrepancy count and the two printed-line counters. -/
def tableLoop (img1 img2 : HDU) (delta : ℚ) (fieldExcl : List String) :
    ℕ → ℕ → Bool → ℤ → ℕ → ℕ → ℕ → TableRes
  | 0, _, nodiff, budget, ndiff, locL, typeL =>
      ⟨if 0 < ndiff then false else nodiff, none, ndiff, locL, typeL, budget⟩
  | n + 1, col, nodiff, budget, ndiff, locL, typeL =>
      match headerFind img1.cards ("TFORM" ++ toString (col + 1)) with
      | none =>
          ⟨nodiff, some (.keyErr ("TFORM" ++ toString (col + 1))), ndiff, locL,
            typeL, budget⟩
      | some f1 =>
          match headerFind img2.cards ("TFORM" ++ toString (col + 1)) with
          | none =>
              ⟨nodiff, some (.keyErr ("TFORM" ++ toString (col + 1))), ndiff,
                locL, typeL, budget⟩
          | some f2 =>
              if !(pyEqB f1 f2) then
                tableLoop img1 img2 delta fieldExcl n (col + 1) nodiff budget
                  ndiff locL (typeL + 1)
              else
                match img1.data with
                | some (.table t1) =>
                    match img2.data with
                    | some (.table t2) =>
                        if col < t1.names.length ∧ col < t2.names.length ∧
                            col < t1.fields.length ∧ col < t2.fields.length then
                          let name1 := pyUpperS (t1.names.getD col "")
                          let name2 := pyUpperS (t2.names.getD col "")
                          if fieldExcl.contains name1 || fieldExcl.contains name2 then
                            tableLoop img1 img2 delta fieldExcl n (col + 1) nodiff
                              budget ndiff locL typeL
                          else
                            let found := diff_num (t1.fields.getD col default)
                              (t2.fields.getD col default) delta
                            let nd := found.length
                            let nprint : ℤ := min budget (nd : ℤ)
                            let locLNew :=
                              if 0 < nprint then locL + nprint.toNat else locL
                            tableLoop img1 img2 delta fieldExcl n (col + 1) nodiff
                              (budget - nd) (ndiff + nd) locLNew typeL
                        else ⟨nodiff, some .indexErr, ndiff, locL, typeL, budget⟩
                    | _ => ⟨nodiff, some .attributeErr, ndiff, locL, typeL, budget⟩
                | _ => ⟨nodiff, some .attributeErr, ndiff, locL, typeL, budget⟩

/-- Embedding of `compare_table` (diff.py lines 422-490): column-count check,
absent-data special cases (note that the one-sided case falls through into
the column loop, as in the source), then the column loop. -/
def compare_table (img1 img2 : HDU) (delta : ℚ) (maxdiff : ℤ)
    (field_excl_list : List String) (nodiff : Bool) : TableRes :=
  match headerFind img1.cards "TFIELDS" with
  | none => ⟨nodiff, some (.keyErr "TFIELDS"), 0, 0, 0, maxdiff⟩
  | some v1 =>
      match headerFind img2.cards "TFIELDS" with
      | none => ⟨nodiff, some (.keyErr "TFIELDS"), 0, 0, 0, maxdiff⟩
      | some v2 =>
          match v1 with
          | .int ncol1 =>
              match v2 with
              | .int ncol2 =>
                  let nodiff := if ncol1 ≠ ncol2 then false else nodiff
                  let ncol := min ncol1 ncol2
                  if img1.data.isNone && img2.data.isNone then
                    ⟨nodiff, none, 0, 0, 0, maxdiff⟩
                  else
                    let nodiff :=
                      if img1.data.isNone || img2.data.isNone then false else nodiff
                    tableLoop img1 img2 delta field_excl_list ncol.toNat 0 nodiff
                      maxdiff 0 0 0
              | _ => ⟨nodiff, some .typeErr, 0, 0, 0, maxdiff⟩
          | _ => ⟨nodiff, some .typeErr, 0, 0, 0, maxdiff⟩

/-! ### Image comparator -/

/-- Wrap an integer into signed 16-bit range, as storing into the
`dtype=num.int16` index buffers of `compare_img` does. -/
def int16wrap (z : ℤ) : ℤ := (z + 32768) % 65536 - 32768

/-- Result of `compare_img`: final accumulator, optional exception, total
discrepancy count, and the printed display coordinates in order. -/
structure ImgRes where
  nodiff : Bool
  exc : Option PyExc
  ndiff : ℕ
  locs : List (List ℤ)
deriving DecidableEq

/-- Embedding of `compare_img` (diff.py lines 493-529): integer payloads
(`BITPIX > 0`) force exact comparison; the flagged positions are translated
to 1-based, axis-reversed display coordinates through the int16 index
buffers, and at most `maxdiff` of them are printed. -/
def compare_img (img1 img2 : HDU) (delta : ℚ) (maxdiff : ℤ) (nodiff : Bool) :
    ImgRes :=
  match headerFind img1.cards "BITPIX" with
  | none => ⟨nodiff, some (.keyErr "BITPIX"), 0, []⟩
  | some v =>
      match v with
      | .int bitpix =>
          let thresh := if 0 < bitpix then 0 else delta
          match img1.data with
          | some (.image a1) =>
              match img2.data with
              | some (.image a2) =>
                  let found := diff_num a1 a2 thresh
                  let ndiff := found.length
                  let nprint : ℤ := min maxdiff (ndiff : ℤ)
                  let locs := (found.take nprint.toNat).map (fun p =>
                    ((unravel a1.shape p).map
                      (fun c : ℕ => int16wrap (c : ℤ))).reverse.map
                      (fun c => int16wrap (c + 1)))
                  ⟨if 0 < ndiff then false else nodiff, none, ndiff, locs⟩
              | _ => ⟨nodiff, some .attributeErr, 0, []⟩
          | _ => ⟨nodiff, some .attributeErr, 0, []⟩
      | _ => ⟨nodiff, some .typeErr, 0, []⟩

/-! ### Orchestrator -/

/-- The `XTENSION` tag of a unit (empty for the primary unit), stripped as in
the source; missing or non-string values raise. -/
def getXtension (i : ℕ) (h : HDU) : Except PyExc String :=
  if i = 0 then .ok ""
  else
    match headerFind h.cards "XTENSION" with
    | some (.str s) => .ok (pyStrip s)
    | some _ => .error .attributeErr
    | none => .error (.keyErr "XTENSION")

/-- Header comparison block of the per-unit loop (diff.py lines 61-73):
build both dictionaries, run the extra-keyword check, then the value and
comment comparators unless excluded by the `*` sentinel. -/
def headerStep (ve ce : List String) (delta : ℚ) (ng : Bool) (h1 h2 : HDU)
    (nodiff : Bool) : Bool :=
  let kd1 := keyword_dict h1.cards ng
  let kd2 := keyword_dict h2.cards ng
  let nodiff := extra_keywords kd1.1 kd2.1 nodiff
  let nodiff :=
    if ve ≠ ["*"] then compare_keyword_value kd1.1 kd2.1 ve delta nodiff
    else nodiff
  if ce ≠ ["*"] then compare_keyword_comment kd1.2 kd2.2 ce nodiff
  else nodiff

/-- Per-unit loop of `fitsdiff` (diff.py lines 50-87): header comparison,
dimension validation, then table or image data comparison.  The result is
the final accumulator plus the exception that escaped, if any. -/
def hduLoop (ve ce fe : List String) (maxdiff : ℤ) (delta : ℚ) (ng : Bool) :
    List HDU → List HDU → ℕ → Bool → Bool × Option PyExc
  | h1 :: t1, h2 :: t2, i, nodiff =>
      (match getXtension i h1 with
      | .error e => (nodiff, some e)
      | .ok xtension =>
          let nodiff := headerStep ve ce delta ng h1 h2 nodiff
          let dr := compare_dim h1 h2 nodiff
          match dr.exc with
          | some e => (dr.nodiff, some e)
          | none =>
              let mdiff := max 0 maxdiff
              match dr.dim with
              | none => hduLoop ve ce fe maxdiff delta ng t1 t2 (i + 1) dr.nodiff
              | some _ =>
                  if xtension = "BINTABLE" ∨ xtension = "TABLE" then
                    if fe ≠ ["*"] then
                      let tr := compare_table h1 h2 delta mdiff fe dr.nodiff
                      match tr.exc with
                      | some e => (tr.nodiff, some e)
                      | none =>
                          hduLoop ve ce fe maxdiff delta ng t1 t2 (i + 1) tr.nodiff
                    else hduLoop ve ce fe maxdiff delta ng t1 t2 (i + 1) dr.nodiff
                  else
                    let ir := compare_img h1 h2 delta mdiff dr.nodiff
                    match ir.exc with
                    | some e => (ir.nodiff, some e)
                    | none =>
                        hduLoop ve ce fe maxdiff delta ng t1 t2 (i + 1) ir.nodiff)
  | _, _, _, nodiff => (nodiff, none)

/-- Result of a `fitsdiff` run: the final value of the `nodiff` flag, the
exception that escaped (if any), whether each of the two `close()` calls was
executed, and the returned verdict (`none` when the run raised instead of
returning). -/
structure FdRes where
  nodiff : Bool
  exc : Option PyExc
  closed1 : Bool
  closed2 : Bool
  returned : Option Bool
deriving DecidableEq

/-- Embedding of `fitsdiff` (diff.py lines 9-99) after the two files have
been opened: parse the three exclusion lists, reset the accumulator, abort
with `RuntimeError` on a unit-count mismatch (skipping the `close()` calls,
which the source only reaches on the normal path), otherwise run the unit
loop and close both handles before returning the accumulator. -/
def fitsdiff (fs : String → Option String) (im1 im2 : List HDU)
    (comment_excl_list value_excl_list field_excl_list : String)
    (maxdiff : ℤ) (delta : ℚ) (neglect_blanks : Bool) : FdRes :=
  let value_list := (list_parse fs value_excl_list).1
  let comment_list := (list_parse fs comment_excl_list).1
  let field_list := (list_parse fs field_excl_list).1
  let nodiff := true
  if im1.length ≠ im2.length then
    ⟨nodiff, some .runtimeError, false, false, none⟩
  else
    match hduLoop value_list comment_list field_list maxdiff delta
        neglect_blanks im1 im2 0 nodiff with
    | (nd, some e) => ⟨nd, some e, false, false, none⟩
    | (nd, none) => ⟨nd, none, true, true, some nd⟩

/-! ### Analysis of the Array Differ

`exceedsB` is the pointwise exceeds-either-magnitude test, and `flagIdx` the
normal form of both branches of `diff_num`: the positions (from offset `k`)
where the test holds. -/

/-- Pointwise tolerance test of the Array Differ: the scaled gap exceeds the
magnitude of either operand. -/
def exceedsB (delta a b : ℚ) : Bool :=
  decide (|b - a| / delta > |a|) || decide (|b - a| / delta > |b|)

/-- Positions (from offset `k`) where `exceedsB` holds on aligned operands. -/
def flagIdx (delta : ℚ) : ℕ → List ℚ → List ℚ → List ℕ
  | k, a :: as, b :: bs =>
      if exceedsB delta a b then k :: flagIdx delta (k + 1) as bs
      else flagIdx delta (k + 1) as bs
  | _, _, _ => []

/-! ### Concrete fixtures used when instantiating the claims -/

/-- External file system with no readable files. -/
def fs0 : String → Option String := fun _ => none

/-- External file system holding a single empty (readable) token file `f`. -/
def fsEmptyFile : String → Option String :=
  fun p => if p = "f" then some "" else none

/-- A minimal primary unit with no data (`NAXIS = 0`). -/
def primHdu : HDU :=
  ⟨[("SIMPLE", .bool true, "conforms"), ("BITPIX", .int 16, "bits"),
    ("NAXIS", .int 0, "axes")], none⟩

/-- Header of a one-column binary-table extension with the given `TFORM1`. -/
def tblHeader (tf : String) : List Card :=
  [("XTENSION", .str "BINTABLE", "ext"), ("BITPIX", .int 8, "bits"),
   ("NAXIS", .int 2, "axes"), ("NAXIS1", .int 4, "w"), ("NAXIS2", .int 2, "h"),
   ("PCOUNT", .int 0, "p"), ("GCOUNT", .int 1, "g"), ("TFIELDS", .int 1, "n"),
   ("TFORM1", .str tf, "fmt")]

/-- Table extension with one column `A` holding the given values. -/
def tblHdu (tf : String) (vals : List ℚ) : HDU :=
  ⟨tblHeader tf, some (.table ⟨["A"], [⟨[vals.length], vals, false⟩]⟩)⟩

/-- Table extension carrying no payload. -/
def tblHduNoData (tf : String) : HDU := ⟨tblHeader tf, none⟩

/-- A 2 by 3 integer image differing from `c9Img2` only at zero-based
position (row 1, col 2), which is flat position 5. -/
def c9Img1 : HDU :=
  ⟨[("BITPIX", .int 32, "b")], some (.image ⟨[2, 3], [0, 0, 0, 0, 0, 7], false⟩)⟩

/-- Companion image of `c9Img1`. -/
def c9Img2 : HDU :=
  ⟨[("BITPIX", .int 32, "b")], some (.image ⟨[2, 3], [0, 0, 0, 0, 0, 9], false⟩)⟩

/-- A one-axis image of 32768 integer samples differing from `c9Big2` only at
the last zero-based position, 32767. -/
def c9Big1 : HDU :=
  ⟨[("BITPIX", .int 32, "b")],
   some (.image ⟨[32768], List.replicate 32767 0 ++ [5], false⟩)⟩

/-- Companion image of `c9Big1`. -/
def c9Big2 : HDU :=
  ⟨[("BITPIX", .int 32, "b")],
   some (.image ⟨[32768], List.replicate 32767 0 ++ [7], false⟩)⟩

lemma exceedsB_eq_false_of_diff_eq_zero {delta a b : ℚ}
    (h : |b - a| / delta = 0) : exceedsB delta a b = false := by
  simp only [exceedsB, h, Bool.or_eq_false_iff, decide_eq_false_iff_not, not_lt]
  exact ⟨abs_nonneg a, abs_nonneg b⟩

lemma diff_ne_zero_of_exceedsB {delta a b : ℚ}
    (h : exceedsB delta a b = true) : |b - a| / delta ≠ 0 := by
  intro h0
  rw [exceedsB_eq_false_of_diff_eq_zero h0] at h
  exact Bool.false_ne_true h

/-- The dense branch, written out, equals `flagIdx`. -/
lemma dense_core (δ : ℚ) : ∀ (l1 l2 : List ℚ) (k : ℕ),
    nonzeroBFrom k (List.zipWith or
      (List.zipWith (fun di xi => decide (di > |xi|))
        (List.zipWith (fun a b => |b - a| / δ) l1 l2) l1)
      (List.zipWith (fun di xi => decide (di > |xi|))
        (List.zipWith (fun a b => |b - a| / δ) l1 l2) l2))
    = flagIdx δ k l1 l2 := by
  intro l1
  induction l1 with
  | nil => intro l2 k; simp [nonzeroBFrom, flagIdx]
  | cons a as ih =>
      intro l2 k
      cases l2 with
      | nil => simp [nonzeroBFrom, flagIdx]
      | cons b bs =>
          simp only [List.zipWith_cons_cons, nonzeroBFrom, flagIdx, exceedsB, ih]

lemma compress_cons {α : Type} (c : Bool) (cs : List Bool) (x : α)
    (xs : List α) :
    compress (c :: cs) (x :: xs) =
      if c then x :: compress cs xs else compress cs xs := rfl

lemma nonzeroBFrom_cons (k : ℕ) (b : Bool) (rest : List Bool) :
    nonzeroBFrom k (b :: rest) =
      if b then k :: nonzeroBFrom (k + 1) rest else nonzeroBFrom (k + 1) rest := rfl

lemma flagIdx_cons (δ : ℚ) (k : ℕ) (a b : ℚ) (as bs : List ℚ) :
    flagIdx δ k (a :: as) (b :: bs) =
      if exceedsB δ a b then k :: flagIdx δ (k + 1) as bs
      else flagIdx δ (k + 1) as bs := rfl

/-- The sparse (compress) branch, written out, equals `flagIdx`. -/
lemma sparse_core (δ : ℚ) : ∀ (l1 l2 : List ℚ) (k : ℕ),
    compress (List.zipWith or
      (List.zipWith (fun di xi => decide (di > |xi|))
        (compress ((List.zipWith (fun a b => |b - a| / δ) l1 l2).map
          (fun q => decide (q ≠ 0))) (List.zipWith (fun a b => |b - a| / δ) l1 l2))
        (compress ((List.zipWith (fun a b => |b - a| / δ) l1 l2).map
          (fun q => decide (q ≠ 0))) l1))
      (List.zipWith (fun di xi => decide (di > |xi|))
        (compress ((List.zipWith (fun a b => |b - a| / δ) l1 l2).map
          (fun q => decide (q ≠ 0))) (List.zipWith (fun a b => |b - a| / δ) l1 l2))
        (compress ((List.zipWith (fun a b => |b - a| / δ) l1 l2).map
          (fun q => decide (q ≠ 0))) l2)))
      (nonzeroBFrom k ((List.zipWith (fun a b => |b - a| / δ) l1 l2).map
        (fun q => decide (q ≠ 0))))
    = flagIdx δ k l1 l2 := by
  intro l1
  induction l1 with
  | nil => intro l2 k; simp [nonzeroBFrom, flagIdx, compress]
  | cons a as ih =>
      intro l2 k
      cases l2 with
      | nil => simp [nonzeroBFrom, flagIdx, compress]
      | cons b bs =>
          have ihtail := ih bs (k + 1)
          rw [List.zipWith_cons_cons, List.map_cons, compress_cons,
            compress_cons, compress_cons, nonzeroBFrom_cons, flagIdx_cons]
          by_cases hd : (|b - a| / δ) = 0
          · have hmask : decide ((|b - a| / δ) ≠ 0) = false := by simp [hd]
            have hex : exceedsB δ a b = false :=
              exceedsB_eq_false_of_diff_eq_zero hd
            rw [hmask, hex]
            simp only [Bool.false_eq_true, if_false]
            exact ihtail
          · have hmask : decide ((|b - a| / δ) ≠ 0) = true := by simp [hd]
            rw [hmask]
            simp only [if_true]
            rw [List.zipWith_cons_cons, List.zipWith_cons_cons,
              List.zipWith_cons_cons, compress_cons]
            have hhead : or (decide (|b - a| / δ > |a|)) (decide (|b - a| / δ > |b|)) =
                exceedsB δ a b := rfl
            rw [hhead, ihtail]

/-- `sparsePath` computes `flagIdx`. -/
lemma sparsePath_eq_flagIdx (l1 l2 : List ℚ) (δ : ℚ) :
    sparsePath l1 l2 δ = flagIdx δ 0 l1 l2 := by
  simpa [sparsePath, rawDiff, greaterAbs, nonzeroQ, nonzeroB] using
    sparse_core δ l1 l2 0

/-- `densePath` computes `flagIdx`. -/
lemma densePath_eq_flagIdx (l1 l2 : List ℚ) (δ : ℚ) :
    densePath l1 l2 δ = flagIdx δ 0 l1 l2 := by
  simpa [densePath, rawDiff, greaterAbs, nonzeroB] using dense_core δ l1 l2 0

lemma compress_nil_right {α : Type} (m : List Bool) :
    compress m ([] : List α) = [] := by
  cases m <;> rfl

/-- Membership in `nonzeroBFrom` applied to a zipped test (stated early so
the no-candidate lemma can use it). -/
lemma mem_nonzeroBFrom_zipWith0 (f : ℚ → ℚ → Bool) :
    ∀ (l1 l2 : List ℚ) (k p : ℕ),
    (p ∈ nonzeroBFrom k (List.zipWith f l1 l2) ↔
      ∃ i, i < l1.length ∧ i < l2.length ∧ p = k + i ∧
        f (l1.getD i 0) (l2.getD i 0) = true) := by
  intro l1
  induction l1 with
  | nil => intro l2 k p; simp [nonzeroBFrom]
  | cons a as ih =>
      intro l2 k p
      cases l2 with
      | nil => simp [nonzeroBFrom]
      | cons b bs =>
          rw [List.zipWith_cons_cons, nonzeroBFrom_cons]
          by_cases hf : f a b = true
          · rw [if_pos hf]
            constructor
            · intro hp
              rcases List.mem_cons.mp hp with rfl | hp
              · exact ⟨0, by simp, by simp, by simp, by simpa using hf⟩
              · obtain ⟨i, h1, h2, rfl, ht⟩ := (ih bs (k + 1) p).mp hp
                exact ⟨i + 1, by simpa using h1, by simpa using h2,
                  by omega, by simpa using ht⟩
            · rintro ⟨i, h1, h2, hp, ht⟩
              cases i with
              | zero => simp [hp]
              | succ j =>
                  refine List.mem_cons.mpr (Or.inr ((ih bs (k + 1) p).mpr ?_))
                  exact ⟨j, by simpa using h1, by simpa using h2, by omega,
                    by simpa using ht⟩
          · rw [if_neg hf]
            constructor
            · intro hp
              obtain ⟨i, h1, h2, rfl, ht⟩ := (ih bs (k + 1) p).mp hp
              exact ⟨i + 1, by simpa using h1, by simpa using h2, by omega,
                by simpa using ht⟩
            · rintro ⟨i, h1, h2, hp, ht⟩
              cases i with
              | zero =>
                  simp only [List.getD_cons_zero] at ht
                  exact absurd ht hf
              | succ j =>
                  refine (ih bs (k + 1) p).mpr ?_
                  exact ⟨j, by simpa using h1, by simpa using h2, by omega,
                    by simpa using ht⟩

/-- `flagIdx` is the zipped-test special case of `nonzeroBFrom`. -/
lemma flagIdx_eq_nonzeroBFrom (δ : ℚ) : ∀ (l1 l2 : List ℚ) (k : ℕ),
    flagIdx δ k l1 l2 =
      nonzeroBFrom k (List.zipWith (fun a b => exceedsB δ a b) l1 l2) := by
  intro l1
  induction l1 with
  | nil => intro l2 k; simp [flagIdx, nonzeroBFrom]
  | cons a as ih =>
      intro l2 k
      cases l2 with
      | nil => simp [flagIdx, nonzeroBFrom]
      | cons b bs =>
          rw [List.zipWith_cons_cons, nonzeroBFrom_cons, flagIdx_cons, ih]

/-- Membership characterization of `flagIdx`. -/
lemma mem_flagIdx (δ : ℚ) (l1 l2 : List ℚ) (k p : ℕ) :
    p ∈ flagIdx δ k l1 l2 ↔
      ∃ i, i < l1.length ∧ i < l2.length ∧ p = k + i ∧
        exceedsB δ (l1.getD i 0) (l2.getD i 0) = true := by
  rw [flagIdx_eq_nonzeroBFrom]
  exact mem_nonzeroBFrom_zipWith0 (fun a b => exceedsB δ a b) l1 l2 k p

/-- When the cheap candidate mask is empty, so is the exact flag list. -/
lemma flagIdx_eq_nil_of_no_candidates (δ : ℚ) (l1 l2 : List ℚ)
    (h : nonzeroQ (rawDiff l1 l2 δ) = []) : flagIdx δ 0 l1 l2 = [] := by
  refine List.eq_nil_iff_forall_not_mem.mpr (fun p hp => ?_)
  obtain ⟨i, h1, h2, hpi, ht⟩ := (mem_flagIdx δ l1 l2 0 p).mp hp
  have hcand : p ∈ nonzeroQ (rawDiff l1 l2 δ) := by
    unfold nonzeroQ rawDiff nonzeroB
    rw [List.map_zipWith]
    refine (mem_nonzeroBFrom_zipWith0 _ l1 l2 0 p).mpr
      ⟨i, h1, h2, hpi, ?_⟩
    simpa using diff_ne_zero_of_exceedsB ht
  rw [h] at hcand
  exact absurd hcand (List.not_mem_nil p)

/-- With `delta = 0` the Array Differ is the exact inequality mask. -/
lemma diff_num_zero (a1 a2 : NdArr) :
    diff_num a1 a2 0 = nonzeroB (neMask a1.data a2.data) := by
  unfold diff_num
  by_cases hc : a1.isChar <;> simp [hc]

/-- For nonzero `delta` on non-char arrays, `diff_num` computes `flagIdx`
regardless of which branch it actually took. -/
lemma diff_num_eq_flagIdx (a1 a2 : NdArr) (δ : ℚ) (hc : a1.isChar = false)
    (hδ : δ ≠ 0) : diff_num a1 a2 δ = flagIdx δ 0 a1.data a2.data := by
  unfold diff_num
  simp only [hc, Bool.false_eq_true, if_false]
  rw [if_neg hδ]
  by_cases h0 : (nonzeroQ (rawDiff a1.data a2.data δ)).length = 0
  · rw [if_pos h0, List.length_eq_zero.mp h0]
    exact (flagIdx_eq_nil_of_no_candidates δ _ _ (List.length_eq_zero.mp h0)).symm
  · rw [if_neg h0]
    by_cases hs : (nonzeroQ (rawDiff a1.data a2.data δ)).length <
        (rawDiff a1.data a2.data δ).length / 3
    · rw [if_pos hs]; exact sparsePath_eq_flagIdx _ _ _
    · rw [if_neg hs]; exact densePath_eq_flagIdx _ _ _

/-! ### Monotonicity of the Difference Accumulator

Every detector threads the `nodiff` flag; the following lemmas show each one
can only leave it or clear it, never set it. -/

lemma foldl_true_mono {α : Type} (f : Bool → α → Bool)
    (hf : ∀ b a, f b a = true → b = true) :
    ∀ (l : List α) (b : Bool), List.foldl f b l = true → b = true := by
  intro l
  induction l with
  | nil => intro b h; exact h
  | cons x xs ih => intro b h; exact hf b x (ih (f b x) h)

lemma ite_false_mono {c : Prop} [Decidable c] {b : Bool}
    (h : (if c then false else b) = true) : b = true := by
  by_cases hc : c
  · rw [if_pos hc] at h; exact absurd h (by simp)
  · rwa [if_neg hc] at h

lemma extra_keywords_mono (d1 d2 : List (String × List PyValue)) (nd : Bool)
    (h : extra_keywords d1 d2 nd = true) : nd = true := by
  have hstep1 : ∀ (b : Bool) (kw : String),
      (fun nd kw =>
        match dictFind d2 kw with
        | none => false
        | some vals2 =>
            match dictFind d1 kw with
            | some vals1 => if vals1.length ≠ vals2.length then false else nd
            | none => nd) b kw = true → b = true := by
    intro b kw hb
    cases hf2 : dictFind d2 kw with
    | none => simp only [hf2] at hb; exact Bool.noConfusion hb
    | some vals2 =>
        simp only [hf2] at hb
        cases hf1 : dictFind d1 kw with
        | none => simpa only [hf1] using hb
        | some vals1 =>
            simp only [hf1] at hb
            exact ite_false_mono hb
  have hstep2 : ∀ (b : Bool) (kw : String),
      (fun nd kw => if (dictFind d1 kw).isNone = true then false else nd) b kw
        = true → b = true := by
    intro b kw hb
    exact ite_false_mono hb
  have houter := foldl_true_mono _ hstep2 (dictKeys d2) _ h
  exact foldl_true_mono _ hstep1 (sortStrs (dictKeys d1)) _ houter

lemma compare_keyword_value_mono (d1 d2 : List (String × List PyValue))
    (skip : List String) (δ : ℚ) (nd : Bool)
    (h : compare_keyword_value d1 d2 skip δ nd = true) : nd = true := by
  unfold compare_keyword_value at h
  refine foldl_true_mono _ ?_ _ _ h
  intro b kw hb
  by_cases hc : ((dictFind d2 kw).isSome && !(skip.contains kw)) = true
  · rw [if_pos hc] at hb
    refine foldl_true_mono _ ?_ _ _ hb
    intro b2 i hb2
    exact ite_false_mono hb2
  · rwa [if_neg hc] at hb

lemma compare_keyword_comment_mono (d1 d2 : List (String × List String))
    (skip : List String) (nd : Bool)
    (h : compare_keyword_comment d1 d2 skip nd = true) : nd = true := by
  unfold compare_keyword_comment at h
  refine foldl_true_mono _ ?_ _ _ h
  intro b kw hb
  by_cases hc : ((dictFind d2 kw).isSome && !(skip.contains kw)) = true
  · rw [if_pos hc] at hb
    refine foldl_true_mono _ ?_ _ _ hb
    intro b2 i hb2
    exact ite_false_mono hb2
  · rwa [if_neg hc] at hb

lemma dimTail_mono {nd : Bool} {e : Option PyExc} {d1 d2 : Option (List PyValue)}
    {C1 C2 : Prop} [Decidable C1] [Decidable C2]
    (h : (if C1 then (⟨nd, e, d1⟩ : DimRes)
          else if C2 then ⟨nd, none, d2⟩
          else ⟨false, none, none⟩).nodiff = true) : nd = true := by
  by_cases h1 : C1
  · rwa [if_pos h1] at h
  · rw [if_neg h1] at h
    by_cases h2 : C2
    · rwa [if_pos h2] at h
    · rw [if_neg h2] at h; exact absurd h (by simp)

lemma compare_dim_mono (im1 im2 : HDU) (nd : Bool)
    (h : (compare_dim im1 im2 nd).nodiff = true) : nd = true := by
  unfold compare_dim at h
  repeat' split at h
  all_goals first
    | exact dimTail_mono h
    | simp_all

lemma ite_nodiff_cases {C : Prop} [Decidable C] {A B : TableRes}
    (h : (if C then A else B).nodiff = true) :
    A.nodiff = true ∨ B.nodiff = true := by
  by_cases hc : C
  · rw [if_pos hc] at h; exact Or.inl h
  · rw [if_neg hc] at h; exact Or.inr h

lemma tableLoop_mono (img1 img2 : HDU) (δ : ℚ) (fe : List String) :
    ∀ (n col : ℕ) (nd : Bool) (budget : ℤ) (ndiff locL typeL : ℕ),
      (tableLoop img1 img2 δ fe n col nd budget ndiff locL typeL).nodiff = true →
        nd = true := by
  intro n
  induction n with
  | zero =>
      intro col nd budget ndiff locL typeL h
      unfold tableLoop at h
      by_cases hn : 0 < ndiff
      · rw [if_pos hn] at h; exact absurd h (by simp)
      · rwa [if_neg hn] at h
  | succ n ih =>
      intro col nd budget ndiff locL typeL h
      unfold tableLoop at h
      repeat' split at h
      all_goals try simp only [] at h
      all_goals first
        | exact h
        | exact ih _ _ _ _ _ _ h
        | (rcases ite_nodiff_cases h with h | h <;> exact ih _ _ _ _ _ _ h)

lemma compare_table_mono (img1 img2 : HDU) (δ : ℚ) (m : ℤ) (fe : List String)
    (nd : Bool) (h : (compare_table img1 img2 δ m fe nd).nodiff = true) :
    nd = true := by
  unfold compare_table at h
  repeat' split at h
  all_goals first
    | exact h
    | exact Bool.noConfusion h
    | exact ite_false_mono h
    | exact tableLoop_mono img1 img2 δ fe _ _ _ _ _ _ _ h
    | exact ite_false_mono (tableLoop_mono img1 img2 δ fe _ _ _ _ _ _ _ h)
    | exact ite_false_mono
        (ite_false_mono (tableLoop_mono img1 img2 δ fe _ _ _ _ _ _ _ h))
    | exact absurd (tableLoop_mono img1 img2 δ fe _ _ _ _ _ _ _ h) (by simp)

lemma compare_img_mono (img1 img2 : HDU) (δ : ℚ) (m : ℤ) (nd : Bool)
    (h : (compare_img img1 img2 δ m nd).nodiff = true) : nd = true := by
  unfold compare_img at h
  repeat' split at h
  all_goals first
    | exact h
    | exact ite_false_mono h

lemma headerStep_mono (ve ce : List String) (δ : ℚ) (ng : Bool) (h1 h2 : HDU)
    (nd : Bool) (h : headerStep ve ce δ ng h1 h2 nd = true) : nd = true := by
  unfold headerStep at h
  by_cases hce : ce ≠ ["*"]
  · rw [if_pos hce] at h
    have h2c := compare_keyword_comment_mono _ _ _ _ h
    by_cases hve : ve ≠ ["*"]
    · rw [if_pos hve] at h2c
      exact extra_keywords_mono _ _ _ (compare_keyword_value_mono _ _ _ _ _ h2c)
    · rw [if_neg hve] at h2c
      exact extra_keywords_mono _ _ _ h2c
  · rw [if_neg hce] at h
    by_cases hve : ve ≠ ["*"]
    · rw [if_pos hve] at h
      exact extra_keywords_mono _ _ _ (compare_keyword_value_mono _ _ _ _ _ h)
    · rw [if_neg hve] at h
      exact extra_keywords_mono _ _ _ h

lemma hduLoop_mono (ve ce fe : List String) (m : ℤ) (δ : ℚ) (ng : Bool) :
    ∀ (l1 l2 : List HDU) (i : ℕ) (nd : Bool),
      (hduLoop ve ce fe m δ ng l1 l2 i nd).1 = true → nd = true := by
  intro l1
  induction l1 with
  | nil => intro l2 i nd h; cases l2 <;> exact h
  | cons h1 t1 ih =>
      intro l2 i nd h
      cases l2 with
      | nil => exact h
      | cons h2 t2 =>
          simp only [hduLoop] at h
          repeat' split at h
          all_goals try simp only [] at h
          all_goals first
            | exact h
            | exact headerStep_mono _ _ _ _ _ _ _ (compare_dim_mono _ _ _ h)
            | exact headerStep_mono _ _ _ _ _ _ _
                (compare_dim_mono _ _ _ (ih _ _ _ h))
            | exact headerStep_mono _ _ _ _ _ _ _
                (compare_dim_mono _ _ _ (compare_table_mono _ _ _ _ _ _ h))
            | exact headerStep_mono _ _ _ _ _ _ _
                (compare_dim_mono _ _ _
                  (compare_table_mono _ _ _ _ _ _ (ih _ _ _ h)))
            | exact headerStep_mono _ _ _ _ _ _ _
                (compare_dim_mono _ _ _ (compare_img_mono _ _ _ _ _ h))
            | exact headerStep_mono _ _ _ _ _ _ _
                (compare_dim_mono _ _ _
                  (compare_img_mono _ _ _ _ _ (ih _ _ _ h)))

/-- The verdict `fitsdiff` returns is exactly the final accumulator value,
and only on the non-raising path. -/
lemma fitsdiff_returned (fs : String → Option String) (im1 im2 : List HDU)
    (ce ve fe : String) (m : ℤ) (δ : ℚ) (ng : Bool) :
    (fitsdiff fs im1 im2 ce ve fe m δ ng).returned = none ∨
      (fitsdiff fs im1 im2 ce ve fe m δ ng).returned =
        some (fitsdiff fs im1 im2 ce ve fe m δ ng).nodiff := by
  unfold fitsdiff
  by_cases hlen : im1.length ≠ im2.length
  · simp only [if_pos hlen]
    trivial
  · simp only [if_neg hlen]
    rcases hl : hduLoop (list_parse fs ve).1 (list_parse fs ce).1
        (list_parse fs fe).1 m δ ng im1 im2 0 true with ⟨nd, _ | e⟩
    · exact Or.inr rfl
    · exact Or.inl rfl

/-! ### Claim theorems -/

section ConcreteEval

attribute [local semireducible] Rat.add Rat.mul Rat.sub Rat.inv Rat.ofScientific

/-- C1: the value comparator reports two floats as different exactly when the
absolute gap exceeds the relative envelope around either operand
(`|A-B| > |delta*A|` or `|A-B| > |delta*B|`); any other pair of values is
reported different exactly when Python `!=` holds; for A = 100.0, B = 100.05,
delta = 0.001 gives no report while delta = 0.0001 gives a report. -/
theorem c1_value_comparator :
    (∀ a b δ : ℚ, diff_obj (.float a) (.float b) δ = true ↔
      (|a - b| > |δ * a| ∨ |a - b| > |δ * b|)) ∧
    (∀ (v w : PyValue) (δ : ℚ), ¬ isFloatPair v w →
      (diff_obj v w δ = true ↔ pyEqB v w = false)) ∧
    diff_obj (.float 100) (.float 100.05) 0.001 = false ∧
    diff_obj (.float 100) (.float 100.05) 0.0001 = true := by
  refine ⟨?_, ?_, by decide, by decide⟩
  · intro a b δ
    simp only [diff_obj, Bool.or_eq_true, decide_eq_true_eq]
    rw [abs_sub_comm b a, mul_comm a δ, mul_comm b δ]
  · intro v w δ hvw
    cases v <;> cases w <;>
      first
        | exact absurd trivial hvw
        | simp [diff_obj]

theorem c1_value_comparator_witness :
    ¬ isFloatPair (.str "A") (.str "B") ∧
      (diff_obj (.str "A") (.str "B") 0 = true ↔
        pyEqB (.str "A") (.str "B") = false) :=
  ⟨by decide, c1_value_comparator.2.1 (.str "A") (.str "B") 0 (by decide)⟩

/-- C2: for same-shape arrays and positive delta, the sparse (compress) path
and the dense path of the Array Differ produce identical flat positions and
identical Coordinate Tuples, and `diff_num` itself always agrees with the
dense path, so the branch choice never changes the result. -/
theorem c2_sparse_dense_equiv (a1 a2 : NdArr) (δ : ℚ)
    (hsh : a1.shape = a2.shape) (hlen : a1.data.length = a2.data.length)
    (hδ : 0 < δ) :
    sparsePath a1.data a2.data δ = densePath a1.data a2.data δ ∧
    axisArrays a1.shape (sparsePath a1.data a2.data δ) =
      axisArrays a1.shape (densePath a1.data a2.data δ) ∧
    (a1.isChar = false → diff_num a1 a2 δ = densePath a1.data a2.data δ) := by
  have h := (sparsePath_eq_flagIdx a1.data a2.data δ).trans
    (densePath_eq_flagIdx a1.data a2.data δ).symm
  refine ⟨h, by rw [h], fun hc => ?_⟩
  rw [diff_num_eq_flagIdx a1 a2 δ hc (ne_of_gt hδ), densePath_eq_flagIdx]

theorem c2_sparse_dense_equiv_witness :
    (⟨[2], [0, 3], false⟩ : NdArr).shape = (⟨[2], [0, 0], false⟩ : NdArr).shape ∧
    (0 : ℚ) < 1 ∧
    sparsePath [0, 3] [0, 0] 1 = densePath [0, 3] [0, 0] 1 :=
  ⟨rfl, by decide,
    (c2_sparse_dense_equiv ⟨[2], [0, 3], false⟩ ⟨[2], [0, 0], false⟩ 1 rfl rfl
      (by decide)).1⟩

/-- C3: for a fixed pair of non-char arrays the flagged positions (and hence
the flagged coordinates) of the Array Differ shrink as `delta` grows: every
position flagged at `delta2` is flagged at any `delta1` with
`0 ≤ delta1 ≤ delta2`. -/
theorem c3_tolerance_monotone (a1 a2 : NdArr) (hc : a1.isChar = false)
    (δ1 δ2 : ℚ) (h0 : 0 ≤ δ1) (h12 : δ1 ≤ δ2) :
    (∀ p, p ∈ diff_num a1 a2 δ2 → p ∈ diff_num a1 a2 δ1) ∧
    (∀ c, c ∈ (diff_num a1 a2 δ2).map (unravel a1.shape) →
      c ∈ (diff_num a1 a2 δ1).map (unravel a1.shape)) := by
  have key : ∀ p, p ∈ diff_num a1 a2 δ2 → p ∈ diff_num a1 a2 δ1 := by
    intro p hp
    by_cases h2z : δ2 = 0
    · have h1z : δ1 = 0 := le_antisymm (h2z ▸ h12) h0
      rw [h1z]
      rw [h2z] at hp
      exact hp
    · have h2pos : 0 < δ2 := lt_of_le_of_ne (h0.trans h12) (Ne.symm h2z)
      rw [diff_num_eq_flagIdx a1 a2 δ2 hc h2z] at hp
      obtain ⟨i, hi1, hi2, hpi, ht⟩ := (mem_flagIdx δ2 _ _ 0 p).mp hp
      by_cases h1z : δ1 = 0
      · have hxy : a1.data.getD i 0 ≠ a2.data.getD i 0 := by
          intro he
          exact diff_ne_zero_of_exceedsB ht
            (by rw [← he, sub_self, abs_zero, zero_div])
        rw [h1z, diff_num_zero]
        unfold neMask nonzeroB
        exact (mem_nonzeroBFrom_zipWith0 _ _ _ 0 p).mpr
          ⟨i, hi1, hi2, hpi, by simpa using hxy⟩
      · have h1pos : 0 < δ1 := lt_of_le_of_ne h0 (Ne.symm h1z)
        rw [diff_num_eq_flagIdx a1 a2 δ1 hc h1z]
        refine (mem_flagIdx δ1 _ _ 0 p).mpr ⟨i, hi1, hi2, hpi, ?_⟩
        have hle : |a2.data.getD i 0 - a1.data.getD i 0| / δ2 ≤
            |a2.data.getD i 0 - a1.data.getD i 0| / δ1 :=
          (div_le_div_iff h2pos h1pos).mpr
            (mul_le_mul_of_nonneg_left h12 (abs_nonneg _))
        unfold exceedsB at ht ⊢
        rcases (Bool.or_eq_true _ _).mp ht with hta | htb
        · exact (Bool.or_eq_true _ _).mpr (Or.inl (decide_eq_true
            (lt_of_lt_of_le (of_decide_eq_true hta) hle)))
        · exact (Bool.or_eq_true _ _).mpr (Or.inr (decide_eq_true
            (lt_of_lt_of_le (of_decide_eq_true htb) hle)))
  refine ⟨key, fun c hcm => ?_⟩
  obtain ⟨p, hp, rfl⟩ := List.mem_map.mp hcm
  exact List.mem_map.mpr ⟨p, key p hp, rfl⟩

theorem c3_tolerance_monotone_witness :
    (⟨[1], [0], false⟩ : NdArr).isChar = false ∧ (0 : ℚ) ≤ 0 ∧ (0 : ℚ) ≤ 1 ∧
    0 ∈ diff_num ⟨[1], [0], false⟩ ⟨[1], [3], false⟩ 1 ∧
    0 ∈ diff_num ⟨[1], [0], false⟩ ⟨[1], [3], false⟩ 0 :=
  ⟨rfl, by decide, by decide, by decide,
    (c3_tolerance_monotone ⟨[1], [0], false⟩ ⟨[1], [3], false⟩ rfl 0 1
      (by decide) (by decide)).1 0 (by decide)⟩

/-- C4 counterexample: on files with 1 and 2 units the run aborts with
RuntimeError, but neither `close()` executes — the handles are not released
on the fatal-error exit path, contrary to the claim. -/
theorem c4_counterexample :
    (fitsdiff fs0 [primHdu] [primHdu, primHdu] "" "" "" 10 0 true).exc =
      some .runtimeError ∧
    (fitsdiff fs0 [primHdu] [primHdu, primHdu] "" "" "" 10 0 true).closed1 =
      false ∧
    (fitsdiff fs0 [primHdu] [primHdu, primHdu] "" "" "" 10 0 true).closed2 =
      false := by
  exact ⟨by decide, by decide, by decide⟩

/-- C4 amended: a unit-count mismatch raises RuntimeError immediately with no
verdict and with both `close()` calls skipped; the handles are released
exactly on the runs where no exception escapes, and there the verdict is the
final accumulator value. -/
theorem c4_fatal_and_close_amended (fs : String → Option String)
    (im1 im2 : List HDU) (ce ve fe : String) (m : ℤ) (δ : ℚ) (ng : Bool) :
    (im1.length ≠ im2.length →
      fitsdiff fs im1 im2 ce ve fe m δ ng =
        ⟨true, some .runtimeError, false, false, none⟩) ∧
    ((fitsdiff fs im1 im2 ce ve fe m δ ng).exc = none →
      (fitsdiff fs im1 im2 ce ve fe m δ ng).closed1 = true ∧
      (fitsdiff fs im1 im2 ce ve fe m δ ng).closed2 = true ∧
      (fitsdiff fs im1 im2 ce ve fe m δ ng).returned =
        some (fitsdiff fs im1 im2 ce ve fe m δ ng).nodiff) := by
  constructor
  · intro hlen
    unfold fitsdiff
    simp only [if_pos hlen]
  · intro hexc
    unfold fitsdiff at hexc ⊢
    by_cases hlen : im1.length ≠ im2.length
    · simp only [if_pos hlen] at hexc
      exact absurd hexc (by simp)
    · simp only [if_neg hlen] at hexc ⊢
      rcases hl : hduLoop (list_parse fs ve).1 (list_parse fs ce).1
          (list_parse fs fe).1 m δ ng im1 im2 0 true with ⟨nd, _ | e⟩
      · exact ⟨rfl, rfl, rfl⟩
      · rw [hl] at hexc
        exact Option.noConfusion hexc

theorem c4_fatal_and_close_amended_witness :
    ([primHdu].length ≠ [primHdu, primHdu].length) ∧
    fitsdiff fs0 [primHdu] [primHdu, primHdu] "" "" "" 10 0 true =
      ⟨true, some .runtimeError, false, false, none⟩ ∧
    (fitsdiff fs0 [primHdu] [primHdu] "" "" "" 10 0 true).exc = none ∧
    ((fitsdiff fs0 [primHdu] [primHdu] "" "" "" 10 0 true).closed1 = true ∧
     (fitsdiff fs0 [primHdu] [primHdu] "" "" "" 10 0 true).closed2 = true ∧
     (fitsdiff fs0 [primHdu] [primHdu] "" "" "" 10 0 true).returned =
       some (fitsdiff fs0 [primHdu] [primHdu] "" "" "" 10 0 true).nodiff) :=
  ⟨by decide,
   (c4_fatal_and_close_amended fs0 [primHdu] [primHdu, primHdu] "" "" "" 10 0
     true).1 (by decide),
   by decide,
   (c4_fatal_and_close_amended fs0 [primHdu] [primHdu] "" "" "" 10 0 true).2
     (by decide)⟩

/-- C5: evaluation of the table comparator at the failing input: with both
payloads absent it returns quietly with no mismatch, but with exactly one
payload absent it reports the mismatch, clears the accumulator, and then the
column loop dereferences the absent payload, so an AttributeError escapes the
table comparator instead of the run continuing. -/
theorem c5_absent_data_bug :
    compare_table (tblHduNoData "1J") (tblHduNoData "1J") 0 10 [""] true =
      ⟨true, none, 0, 0, 0, 10⟩ ∧
    (compare_table (tblHduNoData "1J") (tblHdu "1J" [1, 2]) 0 10 [""]
      true).nodiff = false ∧
    (compare_table (tblHduNoData "1J") (tblHdu "1J" [1, 2]) 0 10 [""]
      true).exc = some .attributeErr := by
  exact ⟨by decide, by decide, by decide⟩

/-- C6 counterexample: for an empty but readable token file the parser
returns the single empty token yet emits no caution, contrary to the claim
that the empty-file case comes with a caution. -/
theorem c6_counterexample :
    (list_parse fsEmptyFile "@f").1 = [""] ∧
    (list_parse fsEmptyFile "@f").2 = false := by
  exact ⟨by decide, by decide⟩

lemma splitComma_ne_nil : ∀ l : List Char, splitComma l ≠ []
  | [] => by simp [splitComma]
  | c :: rest => by
      unfold splitComma
      by_cases hc : c = ','
      · simp [hc]
      · simp only [hc, if_false]
        cases h : splitComma rest <;> simp

/-- C6 amended: `list_parse` is total and always returns a non-empty token
list; an inline list is upper-cased and comma-split with no caution; a
reference to an unreadable file yields the single empty token with a caution;
a readable file is upper-cased and whitespace-split, the single empty token
(with no caution) standing in when no token results. -/
theorem c6_list_parse_amended (fs : String → Option String) (s : String) :
    (list_parse fs s).1 ≠ [] ∧
    (¬ (0 < s.toList.length ∧ s.toList.getD 0 ' ' = '@') →
      list_parse fs s =
        ((splitComma (s.toList.map Char.toUpper)).map String.mk, false)) ∧
    ((0 < s.toList.length ∧ s.toList.getD 0 ' ' = '@') →
      (fs (String.mk (s.toList.drop 1)) = none →
        list_parse fs s = ([""], true)) ∧
      (∀ text, fs (String.mk (s.toList.drop 1)) = some text →
        list_parse fs s =
          (if ((splitWs (text.toList.map Char.toUpper)).map String.mk).isEmpty
           then [""]
           else (splitWs (text.toList.map Char.toUpper)).map String.mk,
           false))) := by
  refine ⟨?_, ?_, ?_⟩
  · unfold list_parse
    by_cases hat : (0 < s.toList.length ∧ s.toList.getD 0 ' ' = '@')
    · rw [if_pos hat]
      cases hf : fs (String.mk (s.toList.drop 1)) with
      | none => simp
      | some text =>
          simp only []
          split
          · simp
          · rename_i hcond
            intro hnil
            exact hcond (by rw [hnil]; rfl)
    · rw [if_neg hat]
      simpa using splitComma_ne_nil (s.toList.map Char.toUpper)
  · intro hat
    unfold list_parse
    rw [if_neg hat]
  · intro hat
    constructor
    · intro hf
      unfold list_parse
      rw [if_pos hat, hf]
    · intro text hf
      unfold list_parse
      rw [if_pos hat, hf]

theorem c6_list_parse_amended_witness :
    (list_parse fs0 "a,b").1 ≠ [] ∧
    list_parse fs0 "a,b" = (["A", "B"], false) ∧
    (0 < ("@missing" : String).toList.length ∧
      ("@missing" : String).toList.getD 0 ' ' = '@') ∧
    list_parse fs0 "@missing" = ([""], true) :=
  ⟨(c6_list_parse_amended fs0 "a,b").1, by decide, by decide,
   ((c6_list_parse_amended fs0 "@missing").2.2 (by decide)).1 (by decide)⟩

/-- C7: the Difference Accumulator is monotone: every detector either leaves
the flag unchanged or clears it — a true result implies the flag went in
true — and the verdict `fitsdiff` returns (when it returns) is exactly the
final accumulator value, which is initialized to true and threaded through
the unit loop. -/
theorem c7_accumulator_monotone :
    (∀ d1 d2 nd, extra_keywords d1 d2 nd = true → nd = true) ∧
    (∀ d1 d2 skip δ nd,
      compare_keyword_value d1 d2 skip δ nd = true → nd = true) ∧
    (∀ d1 d2 skip nd,
      compare_keyword_comment d1 d2 skip nd = true → nd = true) ∧
    (∀ im1 im2 nd, (compare_dim im1 im2 nd).nodiff = true → nd = true) ∧
    (∀ img1 img2 δ m fe nd,
      (compare_table img1 img2 δ m fe nd).nodiff = true → nd = true) ∧
    (∀ img1 img2 δ m nd,
      (compare_img img1 img2 δ m nd).nodiff = true → nd = true) ∧
    (∀ ve ce fe m δ ng l1 l2 i nd,
      (hduLoop ve ce fe m δ ng l1 l2 i nd).1 = true → nd = true) ∧
    (∀ fs im1 im2 ce ve fe m δ ng,
      (fitsdiff fs im1 im2 ce ve fe m δ ng).returned = none ∨
      (fitsdiff fs im1 im2 ce ve fe m δ ng).returned =
        some (fitsdiff fs im1 im2 ce ve fe m δ ng).nodiff) :=
  ⟨extra_keywords_mono, compare_keyword_value_mono,
   compare_keyword_comment_mono, compare_dim_mono, compare_table_mono,
   compare_img_mono, hduLoop_mono, fitsdiff_returned⟩

theorem c7_accumulator_monotone_witness :
    (compare_table (tblHdu "1J" [1, 2]) (tblHdu "1J" [1, 2]) 0 10 [""]
      true).nodiff = true ∧ true = true :=
  ⟨by decide,
   c7_accumulator_monotone.2.2.2.2.1 (tblHdu "1J" [1, 2]) (tblHdu "1J" [1, 2])
     0 10 [""] true (by decide)⟩

/-! Budget accounting of the table comparator. -/

lemma tableLoop_budget (img1 img2 : HDU) (δ : ℚ) (fe : List String) :
    ∀ (n col : ℕ) (nd : Bool) (budget : ℤ) (ndiff locL typeL : ℕ),
      (tableLoop img1 img2 δ fe n col nd budget ndiff locL typeL).budget =
        budget -
          (((tableLoop img1 img2 δ fe n col nd budget ndiff locL typeL).ndiff : ℤ)
            - (ndiff : ℤ)) := by
  intro n
  induction n with
  | zero =>
      intro col nd budget ndiff locL typeL
      simp [tableLoop]
  | succ n ih =>
      intro col nd budget ndiff locL typeL
      unfold tableLoop
      repeat' split
      all_goals try simp only []
      all_goals first
        | (simp; done)
        | (rw [ih]; try omega)
        | (split <;> (rw [ih]; try omega))

lemma tableLoop_locLines (img1 img2 : HDU) (δ : ℚ) (fe : List String) :
    ∀ (n col : ℕ) (nd : Bool) (budget : ℤ) (ndiff locL typeL : ℕ),
      (tableLoop img1 img2 δ fe n col nd budget ndiff locL typeL).locLines ≤
        locL + budget.toNat := by
  intro n
  induction n with
  | zero =>
      intro col nd budget ndiff locL typeL
      simp [tableLoop]
  | succ n ih =>
      intro col nd budget ndiff locL typeL
      unfold tableLoop
      repeat' split
      all_goals try simp only []
      all_goals first
        | exact Nat.le_add_right _ _
        | exact le_trans (ih _ _ _ _ _ _) (by first | omega | (split <;> omega))
        | (split <;>
            exact le_trans (ih _ _ _ _ _ _) (by first | omega | (split <;> omega)))

lemma compare_table_budget (img1 img2 : HDU) (δ : ℚ) (m : ℤ)
    (fe : List String) (nd : Bool) :
    (compare_table img1 img2 δ m fe nd).budget =
      m - ((compare_table img1 img2 δ m fe nd).ndiff : ℤ) := by
  unfold compare_table
  repeat' split
  all_goals try simp only []
  all_goals first
    | (simp; done)
    | (rw [tableLoop_budget]; simp)

lemma compare_table_locLines (img1 img2 : HDU) (δ : ℚ) (m : ℤ)
    (fe : List String) (nd : Bool) :
    (compare_table img1 img2 δ m fe nd).locLines ≤ m.toNat := by
  unfold compare_table
  repeat' split
  all_goals try simp only []
  all_goals first
    | (simp; done)
    | exact le_trans (tableLoop_locLines img1 img2 δ fe _ _ _ _ _ _ _) (by omega)

lemma hduLoop_clamp (ve ce fe : List String) (m : ℤ) (δ : ℚ) (ng : Bool) :
    ∀ (l1 l2 : List HDU) (i : ℕ) (nd : Bool),
      hduLoop ve ce fe m δ ng l1 l2 i nd =
        hduLoop ve ce fe (max 0 m) δ ng l1 l2 i nd := by
  intro l1
  induction l1 with
  | nil => intro l2 i nd; cases l2 <;> rfl
  | cons h1 t1 ih =>
      intro l2 i nd
      cases l2 with
      | nil => rfl
      | cons h2 t2 =>
          simp only [hduLoop, ih, ← max_assoc, max_self]

/-- C8 counterexample: with budget 3 and one column holding 5 discrepancies,
3 location lines are printed but the budget variable ends at -2, not 0: it is
decremented by the number of discrepancies found, not by the number of lines
actually printed as the claim states. -/
theorem c8_counterexample :
    compare_table (tblHdu "1J" [0, 1, 2, 3, 4]) (tblHdu "1J" [9, 8, 7, 6, 5])
      0 3 [""] true = ⟨false, none, 5, 3, 0, -2⟩ ∧
    (compare_table (tblHdu "1J" [0, 1, 2, 3, 4]) (tblHdu "1J" [9, 8, 7, 6, 5])
      0 3 [""] true).budget ≠
      3 - ((compare_table (tblHdu "1J" [0, 1, 2, 3, 4])
        (tblHdu "1J" [9, 8, 7, 6, 5]) 0 3 [""] true).locLines : ℤ) := by
  exact ⟨by decide, by decide⟩

/-- C8 amended: the budget is shared across all columns without per-column
reset and is decremented by the number of discrepancies found in each
compared column (so it can go negative); at most `max(0, max-diff)` location
lines are printed per unit while the discrepancy count keeps counting; the
orchestrator clamps a negative configured budget to 0; with budget 0 and 5
discrepancies nothing is printed, 5 data points are reported and the verdict
is false. -/
theorem c8_print_budget_amended :
    (∀ img1 img2 δ m fe nd,
      (compare_table img1 img2 δ m fe nd).budget =
        m - ((compare_table img1 img2 δ m fe nd).ndiff : ℤ)) ∧
    (∀ img1 img2 δ m fe nd,
      (compare_table img1 img2 δ m fe nd).locLines ≤ m.toNat) ∧
    (∀ fs im1 im2 ce ve fe m δ ng, m ≤ 0 →
      fitsdiff fs im1 im2 ce ve fe m δ ng =
        fitsdiff fs im1 im2 ce ve fe 0 δ ng) ∧
    compare_table (tblHdu "1J" [0, 1, 2, 3, 4]) (tblHdu "1J" [9, 8, 7, 6, 5])
      0 0 [""] true = ⟨false, none, 5, 0, 0, -5⟩ := by
  refine ⟨compare_table_budget, compare_table_locLines, ?_, by decide⟩
  intro fs im1 im2 ce ve fe m δ ng hm
  unfold fitsdiff
  simp only []
  rw [hduLoop_clamp, max_eq_left hm]

theorem c8_print_budget_amended_witness :
    ((-7 : ℤ) ≤ 0) ∧
    fitsdiff fs0 [primHdu, tblHdu "1J" [0, 1, 2, 3, 4]]
        [primHdu, tblHdu "1J" [9, 8, 7, 6, 5]] "" "" "" (-7) 0 true =
      fitsdiff fs0 [primHdu, tblHdu "1J" [0, 1, 2, 3, 4]]
        [primHdu, tblHdu "1J" [9, 8, 7, 6, 5]] "" "" "" 0 0 true :=
  ⟨by decide,
   c8_print_budget_amended.2.2.1 fs0 [primHdu, tblHdu "1J" [0, 1, 2, 3, 4]]
     [primHdu, tblHdu "1J" [9, 8, 7, 6, 5]] "" "" "" (-7) 0 true (by decide)⟩

/-! Display coordinates of the image comparator. -/

lemma int16wrap_eq_self {z : ℤ} (h1 : -32768 ≤ z) (h2 : z ≤ 32767) :
    int16wrap z = z := by
  unfold int16wrap
  omega

lemma zipWith_replicate_same {α β γ : Type} (f : α → β → γ) (a : α) (b : β) :
    ∀ n, List.zipWith f (List.replicate n a) (List.replicate n b) =
      List.replicate n (f a b)
  | 0 => rfl
  | n + 1 => by
      simp only [List.replicate_succ, List.zipWith_cons_cons,
        zipWith_replicate_same f a b n]

lemma nonzeroBFrom_replicate_false (l : List Bool) :
    ∀ (n k : ℕ), nonzeroBFrom k (List.replicate n false ++ l) =
      nonzeroBFrom (k + n) l
  | 0, k => by simp
  | n + 1, k => by
      rw [List.replicate_succ, List.cons_append, nonzeroBFrom_cons]
      simp only [Bool.false_eq_true, if_false]
      rw [nonzeroBFrom_replicate_false l n (k + 1)]
      congr 1
      omega

lemma c9_big_found :
    diff_num ⟨[32768], List.replicate 32767 0 ++ [5], false⟩
      ⟨[32768], List.replicate 32767 0 ++ [7], false⟩ 0 = [32767] := by
  rw [diff_num_zero]
  show nonzeroBFrom 0 (List.zipWith (fun a b => decide (a ≠ b))
    (List.replicate 32767 (0 : ℚ) ++ [5]) (List.replicate 32767 (0 : ℚ) ++ [7]))
      = [32767]
  rw [List.zipWith_append _ _ _ _ _ rfl, zipWith_replicate_same]
  rw [show (decide ((0 : ℚ) ≠ 0)) = false from by decide]
  rw [show List.zipWith (fun a b => decide (a ≠ b)) ([5] : List ℚ) [7] = [true]
    from by decide]
  rw [nonzeroBFrom_replicate_false]
  simp [nonzeroBFrom]

lemma compare_img_eval (cards1 cards2 : List Card) (bp : ℤ) (a1 a2 : NdArr)
    (h1 : headerFind cards1 "BITPIX" = some (.int bp)) (hbp : 0 < bp)
    (δ : ℚ) (m : ℤ) (nd : Bool) :
    compare_img ⟨cards1, some (.image a1)⟩ ⟨cards2, some (.image a2)⟩ δ m nd =
      { nodiff := if 0 < (diff_num a1 a2 0).length then false else nd,
        exc := none,
        ndiff := (diff_num a1 a2 0).length,
        locs := ((diff_num a1 a2 0).take
            (min m ((diff_num a1 a2 0).length : ℤ)).toNat).map
          (fun p =>
            ((unravel a1.shape p).map
              (fun c : ℕ => int16wrap (c : ℤ))).reverse.map
              (fun c => int16wrap (c + 1))) } := by
  unfold compare_img
  rw [show (⟨cards1, some (.image a1)⟩ : HDU).cards = cards1 from rfl, h1]
  simp only [if_pos hbp]

/-- C9 counterexample: on a one-axis image of 32768 samples differing at the
last position, the int16 index buffers wrap and the displayed coordinate is
[-32768] instead of the claimed reversed-and-incremented value [32768]. -/
theorem c9_counterexample :
    (compare_img c9Big1 c9Big2 0 10 true).locs = [[-32768]] ∧
    (unravel [32768] 32767).reverse.map (fun c => (c : ℤ) + 1) = [32768] ∧
    ([[-32768]] : List (List ℤ)) ≠ [[32768]] := by
  refine ⟨?_, by decide, by decide⟩
  simp only [c9Big1, c9Big2]
  rw [compare_img_eval [("BITPIX", PyValue.int 32, "b")]
      [("BITPIX", PyValue.int 32, "b")] 32
      ⟨[32768], List.replicate 32767 0 ++ [5], false⟩
      ⟨[32768], List.replicate 32767 0 ++ [7], false⟩ rfl (by decide) 0 10 true,
    c9_big_found]
  decide

lemma unravel_lt (shape : List ℕ) (p : ℕ) (h : ∀ d ∈ shape, 0 < d) :
    ∀ c ∈ unravel shape p, ∃ d ∈ shape, c < d := by
  induction shape generalizing p with
  | nil => intro c hc; simp [unravel] at hc
  | cons d ds ih =>
      intro c hc
      rw [unravel] at hc
      rcases List.mem_cons.mp hc with rfl | hc
      · exact ⟨d, List.mem_cons_self _ _,
          Nat.mod_lt _ (h d (List.mem_cons_self _ _))⟩
      · obtain ⟨e, he, hce⟩ := ih (p % ds.prod)
          (fun x hx => h x (List.mem_cons_of_mem _ hx)) c hc
        exact ⟨e, List.mem_cons_of_mem _ he, hce⟩

/-- C9 amended: as long as every axis extent fits in a signed 16-bit integer
(at most 32767), the displayed coordinate is exactly the storage-order
per-axis indices reversed end-to-start and incremented by one; the 16-bit
index buffers make larger extents wrap.  For the 2 by 3 scenario the single
discrepant element at zero-based (1, 2) is displayed as (3, 2). -/
theorem c9_display_coord_amended :
    (∀ (shape : List ℕ) (p : ℕ), (∀ d ∈ shape, 0 < d ∧ d ≤ 32767) →
      ((unravel shape p).map (fun c : ℕ => int16wrap (c : ℤ))).reverse.map
          (fun c => int16wrap (c + 1)) =
        (unravel shape p).reverse.map (fun c : ℕ => (c : ℤ) + 1)) ∧
    compare_img c9Img1 c9Img2 1 10 true = ⟨false, none, 1, [[3, 2]]⟩ := by
  refine ⟨?_, by decide⟩
  intro shape p h
  rw [← List.map_reverse, List.map_map]
  apply List.map_congr_left
  intro c hc
  rw [List.mem_reverse] at hc
  obtain ⟨d, hd, hcd⟩ := unravel_lt shape p (fun x hx => (h x hx).1) c hc
  have hle : c ≤ 32766 := by
    have := (h d hd).2
    omega
  have hc1 : int16wrap (c : ℤ) = (c : ℤ) :=
    int16wrap_eq_self (by omega) (by omega)
  simp only [Function.comp_apply, hc1,
    int16wrap_eq_self (show (-32768 : ℤ) ≤ (c : ℤ) + 1 by omega)
      (show (c : ℤ) + 1 ≤ 32767 by omega)]

theorem c9_display_coord_amended_witness :
    (∀ d ∈ ([2, 3] : List ℕ), 0 < d ∧ d ≤ 32767) ∧
    ((unravel [2, 3] 5).map (fun c : ℕ => int16wrap (c : ℤ))).reverse.map
        (fun c => int16wrap (c + 1)) =
      (unravel [2, 3] 5).reverse.map (fun c : ℕ => (c : ℤ) + 1) :=
  ⟨by decide, c9_display_coord_amended.1 [2, 3] 5 (by decide)⟩

/-- C10 counterexample: two files whose only discrepancy is a column type
mismatch (TFORM1 is 1J in one and 1E in the other, all data equal) end the
run with verdict false, not true: the differing TFORM keyword is caught by
the header value comparison. -/
theorem c10_counterexample :
    (fitsdiff fs0 [primHdu, tblHdu "1J" [1, 2]] [primHdu, tblHdu "1E" [1, 2]]
      "" "" "" 10 0 true).returned = some false := by
  decide

/-- C10 amended: a column type mismatch makes `compare_table` print one
type-mismatch line and skip the column, leaving the accumulator and the
discrepancy count untouched; but a full run on files differing only in that
column type still ends with verdict false, because the header value
comparison reports the differing TFORM keyword — excluding that keyword from
value comparison restores the verdict true. -/
theorem c10_type_mismatch_amended :
    compare_table (tblHdu "1J" [1, 2]) (tblHdu "1E" [1, 2]) 0 10 [""] true =
      ⟨true, none, 0, 0, 1, 10⟩ ∧
    (fitsdiff fs0 [primHdu, tblHdu "1J" [1, 2]] [primHdu, tblHdu "1E" [1, 2]]
      "" "" "" 10 0 true).returned = some false ∧
    (fitsdiff fs0 [primHdu, tblHdu "1J" [1, 2]] [primHdu, tblHdu "1E" [1, 2]]
      "" "TFORM1" "" 10 0 true).returned = some true := by
  exact ⟨by decide, by decide, by decide⟩

end ConcreteEval

end PyFits
